import Mathlib

/-
Verification development for the TT-AWODA optimization core.

Shallow embedding of:
  * src/IA/normalizacion.py   (raw data and the two normalization functions)
  * src/IA/funciones.py       (heuristic, Gini coefficient, multi-objective utility)
  * src/backend/IA/pso.py     (the complete ParticleSwarmOptimizer.optimize)

Python floats are modelled as rationals (ℚ); Python dicts as association
lists in insertion order; the single global numpy random generator as an
abstract stream of rational draws consumed in program order.  numpy's
`sqrt` (used only for the `std_fitness` history field) is irrational on ℚ
and is therefore passed in as an explicit function parameter.
-/

namespace TTAwoda

/-! ## Dictionaries (Python dicts as association lists) -/

abbrev Dict := List (String × ℚ)

/-- Python `d.get(k, 0)`.  The bracket form `d[k]` appearing in
`calcular_utilidad` is only ever applied to keys present in the dict, where
the two coincide, so this single lookup models both. -/
def dlookup (d : Dict) (k : String) : ℚ :=
  ((d.find? (fun p => p.1 == k)).map Prod.snd).getD 0

/-- Python `max(d.values())` (0 on an empty dict, where Python would raise). -/
def maxVals (d : Dict) : ℚ :=
  match d.map Prod.snd with
  | [] => 0
  | x :: xs => xs.foldl max x

/-- Python `min(d.values())` (0 on an empty dict, where Python would raise). -/
def minVals (d : Dict) : ℚ :=
  match d.map Prod.snd with
  | [] => 0
  | x :: xs => xs.foldl min x

/-! ## src/IA/normalizacion.py : raw data -/

def COLONIAS : List String :=
  ["Capultitlán", "Villa GAM", "Residencial Zacatenco", "Tepeyac Insurgentes",
   "Lindavista I", "Magdalena de las Salinas", "Lindavista II"]

def EDIFICACIONES : List String :=
  ["Hospital", "Clínicas Particulares", "Escuelas", "Casas",
   "Dependencias de Gobierno", "Comercios", "Centros Comerciales"]

def SOCIAL : Dict :=
  [("Hospital", 7), ("Clínicas Particulares", 6), ("Escuelas", 5), ("Casas", 4),
   ("Dependencias de Gobierno", 3), ("Comercios", 2), ("Centros Comerciales", 1)]

def LEGAL : Dict :=
  [("Hospital", 3), ("Casas", 3), ("Clínicas Particulares", 3), ("Comercios", 2),
   ("Centros Comerciales", 2), ("Escuelas", 1), ("Dependencias de Gobierno", 1)]

def CONSUMO : Dict :=
  [("Capultitlán", 6), ("Villa GAM", 5), ("Residencial Zacatenco", 2),
   ("Tepeyac Insurgentes", 1), ("Lindavista I", 3),
   ("Magdalena de las Salinas", 7), ("Lindavista II", 4)]

def REPORTES : Dict :=
  [("Capultitlán", 1), ("Villa GAM", 2), ("Residencial Zacatenco", 7),
   ("Tepeyac Insurgentes", 4), ("Lindavista I", 5),
   ("Magdalena de las Salinas", 3), ("Lindavista II", 6)]

/-! ## src/IA/normalizacion.py : normalization functions -/

/-- `normalizar_valores`: min-max scale into `[piso, 1]`; all-equal raw values
map every key to 1.0.  The two successive dict comprehensions of the source
are fused into one map over the pairs. -/
def normalizar_valores (valores : Dict) (piso : ℚ := 3/10) : Dict :=
  let min_val := minVals valores
  let max_val := maxVals valores
  if max_val = min_val then
    valores.map (fun p => (p.1, (1 : ℚ)))
  else
    valores.map (fun p => (p.1, piso + (1 - piso) * ((p.2 - min_val) / (max_val - min_val))))

/-- `normalizar_prioridades`: divide every value by the dict's maximum value. -/
def normalizar_prioridades (prioridades : Dict) : Dict :=
  let max_val := maxVals prioridades
  prioridades.map (fun p => (p.1, p.2 / max_val))

def SOCIAL_NORM : Dict := normalizar_prioridades SOCIAL
def LEGAL_NORM : Dict := normalizar_prioridades LEGAL
def CONSUMO_NORM : Dict := normalizar_valores CONSUMO
def REPORTES_NORM : Dict := normalizar_valores REPORTES

/-! ## src/IA/funciones.py -/

/-- `calcular_heuristica` (src/IA/funciones.py lines 12-47): note the source
binds `x` to the social-normalized map and `y` to the legal-normalized map,
then returns `alpha*x + beta*y + gamma*z + delta*w`. -/
def calcular_heuristica (alpha beta gamma delta : ℚ) (edificacion colonia : String) : ℚ :=
  let x := dlookup SOCIAL_NORM edificacion
  let y := dlookup LEGAL_NORM edificacion
  let z := dlookup CONSUMO_NORM colonia
  let w := dlookup REPORTES_NORM colonia
  alpha * x + beta * y + gamma * z + delta * w

/-- Python `sum((i + 1) * v for i, v in enumerate(valores))`. -/
def sumaPonderada (v : List ℚ) : ℚ :=
  ∑ i in Finset.range v.length, ((i : ℚ) + 1) * v.getD i 0

/-- `calcular_coeficiente_gini` (src/IA/funciones.py lines 53-81).  Python's
`sorted` is embedded as `insertionSort (· ≤ ·)`; on ℚ any two sorted
permutations of the input agree, so this is the unique ascending sort. -/
def calcular_coeficiente_gini (valores : List ℚ) : ℚ :=
  if valores.length = 0 then 0
  else
    let v := valores.insertionSort (· ≤ ·)
    let n := v.length
    let suma_total := v.sum
    if suma_total = 0 then 0
    else (2 * sumaPonderada v) / ((n : ℚ) * suma_total) - ((n : ℚ) + 1) / (n : ℚ)

/-- The iteration order of the double loop
`for colonia in COLONIAS: for edificacion in EDIFICACIONES:`. -/
def pares : List (String × String) :=
  COLONIAS.flatMap (fun colonia => EDIFICACIONES.map (fun edificacion => (colonia, edificacion)))

/-- The dictionary returned by `calcular_utilidad`. -/
structure Utilidad where
  utilidad_total : ℚ
  equidad : ℚ
  satisfaccion_social : ℚ
  cumplimiento_legal : ℚ
  atencion_consumo : ℚ
  atencion_reportes : ℚ
  coeficiente_gini : ℚ
deriving Repr, DecidableEq

/-- `calcular_utilidad` (src/IA/funciones.py lines 84-165).  The five lists
appended in one loop in the source are built as five maps over the same
`pares` enumeration, in the same order.  The executed coefficient line is
`w_equidad, w_social, w_legal, w_consumo, w_reportes = 0.30, 0.25, 0.25, 0.10, 0.10`. -/
def calcular_utilidad (alpha beta gamma delta : ℚ) : Utilidad :=
  let valores_heuristica := pares.map
    (fun p => calcular_heuristica alpha beta gamma delta p.2 p.1)
  let ponderacion_social := pares.map
    (fun p => calcular_heuristica alpha beta gamma delta p.2 p.1 * dlookup SOCIAL_NORM p.2)
  let ponderacion_legal := pares.map
    (fun p => calcular_heuristica alpha beta gamma delta p.2 p.1 * dlookup LEGAL_NORM p.2)
  let ponderacion_consumo := pares.map
    (fun p => calcular_heuristica alpha beta gamma delta p.2 p.1 * dlookup CONSUMO_NORM p.1)
  let ponderacion_reportes := pares.map
    (fun p => calcular_heuristica alpha beta gamma delta p.2 p.1 * dlookup REPORTES_NORM p.1)
  let gini := calcular_coeficiente_gini valores_heuristica
  let equidad := 100 * (1 - gini)
  let suma_total := valores_heuristica.sum
  let satisfaccion_social := 100 * (if 0 < suma_total then ponderacion_social.sum / suma_total else 0)
  let cumplimiento_legal := 100 * (if 0 < suma_total then ponderacion_legal.sum / suma_total else 0)
  let atencion_consumo := 100 * (if 0 < suma_total then ponderacion_consumo.sum / suma_total else 0)
  let atencion_reportes := 100 * (if 0 < suma_total then ponderacion_reportes.sum / suma_total else 0)
  let utilidad_total := 3/10 * equidad + 1/4 * satisfaccion_social + 1/4 * cumplimiento_legal
    + 1/10 * atencion_consumo + 1/10 * atencion_reportes
  ⟨utilidad_total, equidad, satisfaccion_social, cumplimiento_legal,
    atencion_consumo, atencion_reportes, gini⟩

/-! ## src/backend/IA/pso.py -/

/-- A numpy row of 4 floats (a position or velocity). -/
structure Vec4 where
  a : ℚ
  b : ℚ
  c : ℚ
  d : ℚ
deriving Repr, DecidableEq

def Vec4.add (u v : Vec4) : Vec4 := ⟨u.a + v.a, u.b + v.b, u.c + v.c, u.d + v.d⟩

def Vec4.sub (u v : Vec4) : Vec4 := ⟨u.a - v.a, u.b - v.b, u.c - v.c, u.d - v.d⟩

def Vec4.smul (k : ℚ) (v : Vec4) : Vec4 := ⟨k * v.a, k * v.b, k * v.c, k * v.d⟩

def Vec4.vabs (v : Vec4) : Vec4 := ⟨|v.a|, |v.b|, |v.c|, |v.d|⟩

def Vec4.vsum (v : Vec4) : ℚ := v.a + v.b + v.c + v.d

def v0 : Vec4 := ⟨0, 0, 0, 0⟩

/-- The constraint-repair step of `optimize` (src/backend/IA/pso.py lines
129-130): `positions[i] = np.abs(positions[i]); positions[i] /= sum`. -/
def repair (v : Vec4) : Vec4 :=
  let w := v.vabs
  let s := w.vsum
  ⟨w.a / s, w.b / s, w.c / s, w.d / s⟩

/-- The single global numpy generator: an abstract stream of rational draws
together with a cursor; every random primitive advances the cursor. -/
structure RState where
  stream : ℕ → ℚ
  idx : ℕ

def draw (r : RState) : ℚ × RState := (r.stream r.idx, ⟨r.stream, r.idx + 1⟩)

/-- Model of one row of `np.random.dirichlet(np.ones(4), n)`: four draws from
the single generator, placed on the simplex (`repair` is exactly numpy's
normalization of the nonnegative gamma variates). -/
def dirichlet4 (r : RState) : Vec4 × RState :=
  let (g1, r1) := draw r
  let (g2, r2) := draw r1
  let (g3, r3) := draw r2
  let (g4, r4) := draw r3
  (repair ⟨g1, g2, g3, g4⟩, r4)

/-- Model of one row of `np.random.randn(n, 4) * 0.1`: four draws scaled by 0.1. -/
def gauss4 (r : RState) : Vec4 × RState :=
  let (g1, r1) := draw r
  let (g2, r2) := draw r1
  let (g3, r3) := draw r2
  let (g4, r4) := draw r3
  (Vec4.smul (1/10) ⟨g1, g2, g3, g4⟩, r4)

/-- Sample `n` rows, threading the generator left to right (numpy fills the
`dirichlet` matrix before the `randn` matrix, matching the call order). -/
def sampleList (f : RState → Vec4 × RState) : ℕ → RState → List Vec4 × RState
  | 0, r => ([], r)
  | n + 1, r =>
    let (v, r1) := f r
    let (vs, r2) := sampleList f n r1
    (v :: vs, r2)

def argmaxAux : List ℚ → ℕ → ℕ → ℚ → ℕ
  | [], _, bi, _ => bi
  | x :: xs, i, bi, bv => if bv < x then argmaxAux xs (i + 1) i x else argmaxAux xs (i + 1) bi bv

/-- `np.argmax`: index of the first maximal element; `none` models the
`ValueError` numpy raises on an empty array. -/
def argmaxIdx : List ℚ → Option ℕ
  | [] => none
  | x :: xs => some (argmaxAux xs 1 0 x)

/-- Constructor arguments of `ParticleSwarmOptimizer`.  Counts are integers:
the constructor performs no validation, so zero and negative values are
representable. -/
structure Config where
  n_particles : ℤ
  n_iterations : ℤ
  w : ℚ
  c1 : ℚ
  c2 : ℚ
deriving Repr, DecidableEq

/-- One record of `self.history`. -/
structure HistRec where
  iteration : ℕ
  best_fitness : ℚ
  mean_fitness : ℚ
  std_fitness : ℚ
  alpha : ℚ
  beta : ℚ
  gamma : ℚ
  delta : ℚ
deriving Repr, DecidableEq

/-- The mutable arrays of `optimize` plus the generator and the history. -/
structure SwarmState where
  positions : List Vec4
  velocities : List Vec4
  fitness : List ℚ
  personal_best_positions : List Vec4
  personal_best_fitness : List ℚ
  global_best_position : Vec4
  global_best_fitness : ℚ
  global_best_result : Utilidad
  rng : RState
  history : List HistRec

def fitOf (v : Vec4) : ℚ := (calcular_utilidad v.a v.b v.c v.d).utilidad_total

/-- np.mean. -/
def meanL (l : List ℚ) : ℚ := l.sum / (l.length : ℚ)

/-- The variance `mean((x - mean)^2)`; `np.std` is `sqrt` of this, and the
square root is abstracted as the `sqrtFn` parameter of `optimize`. -/
def varL (l : List ℚ) : ℚ := (l.map (fun x => (x - meanL l) ^ 2)).sum / (l.length : ℚ)

/-- The body of `for i in range(self.n_particles)` (src/backend/IA/pso.py
lines 115-145): velocity update, position update, constraint repair,
evaluation, personal-best update with the global-best update nested inside
it exactly as in the source. -/
def particleStep (cfg : Config) (st : SwarmState) (i : ℕ) : SwarmState :=
  let (r1, rngA) := draw st.rng
  let (r2, rngB) := draw rngA
  let pos := st.positions.getD i v0
  let vel := st.velocities.getD i v0
  let pb := st.personal_best_positions.getD i v0
  let cognitive := Vec4.smul (cfg.c1 * r1) (Vec4.sub pb pos)
  let social := Vec4.smul (cfg.c2 * r2) (Vec4.sub st.global_best_position pos)
  let newVel := Vec4.add (Vec4.add (Vec4.smul cfg.w vel) cognitive) social
  let newPos := repair (Vec4.add pos newVel)
  let resultado := calcular_utilidad newPos.a newPos.b newPos.c newPos.d
  let fit := resultado.utilidad_total
  let st1 := { st with
    positions := st.positions.set i newPos
    velocities := st.velocities.set i newVel
    fitness := st.fitness.set i fit
    rng := rngB }
  if st.personal_best_fitness.getD i 0 < fit then
    let st2 := { st1 with
      personal_best_fitness := st1.personal_best_fitness.set i fit
      personal_best_positions := st1.personal_best_positions.set i newPos }
    if st.global_best_fitness < fit then
      { st2 with
        global_best_position := newPos
        global_best_fitness := fit
        global_best_result := resultado }
    else st2
  else st1

/-- One iteration of the main loop: the particle sweep followed by appending
one history record (src/backend/IA/pso.py lines 114-157). -/
def iterStep (cfg : Config) (sqrtFn : ℚ → ℚ) (st : SwarmState) (iteration : ℕ) : SwarmState :=
  let st1 := (List.range cfg.n_particles.toNat).foldl (particleStep cfg) st
  { st1 with
    history := st1.history ++ [{
      iteration := iteration
      best_fitness := st1.global_best_fitness
      mean_fitness := meanL st1.fitness
      std_fitness := sqrtFn (varL st1.fitness)
      alpha := st1.global_best_position.a
      beta := st1.global_best_position.b
      gamma := st1.global_best_position.c
      delta := st1.global_best_position.d }] }

/-- `ParticleSwarmOptimizer.optimize` (src/backend/IA/pso.py lines 57-170) on
a fresh optimizer (`self.history = []`).  The two `Except.error` cases are
the `ValueError`s numpy raises for a negative sampling dimension and for
`argmax` of an empty array; the code itself contains no validation. -/
def optimize (cfg : Config) (sqrtFn : ℚ → ℚ) (r0 : RState) :
    Except String (Vec4 × Utilidad × List HistRec) :=
  if cfg.n_particles < 0 then .error "ValueError: negative dimensions are not allowed"
  else
    let n := cfg.n_particles.toNat
    let (positions, r1) := sampleList dirichlet4 n r0
    let (velocities, r2) := sampleList gauss4 n r1
    let fitness := positions.map fitOf
    match argmaxIdx fitness with
    | none => .error "ValueError: attempt to get argmax of an empty sequence"
    | some gidx =>
      let gpos := positions.getD gidx v0
      let st0 : SwarmState := {
        positions := positions
        velocities := velocities
        fitness := fitness
        personal_best_positions := positions
        personal_best_fitness := fitness
        global_best_position := gpos
        global_best_fitness := fitness.getD gidx 0
        global_best_result := calcular_utilidad gpos.a gpos.b gpos.c gpos.d
        rng := r2
        history := [] }
      let stF := (List.range cfg.n_iterations.toNat).foldl (iterStep cfg sqrtFn) st0
      .ok (stF.global_best_position, stF.global_best_result, stF.history)

/-- Discriminator used to state that a run completed normally. -/
def isOk : Except String (Vec4 × Utilidad × List HistRec) → Bool
  | .ok _ => true
  | .error _ => false

/-- The history of a completed run (`[]` on error). -/
def historyOf : Except String (Vec4 × Utilidad × List HistRec) → List HistRec
  | .ok r => r.2.2
  | .error _ => []

/-! ## Helper lemmas: list sums through indices -/

theorem list_sum_eq_range_getD (l : List ℚ) :
    l.sum = ∑ i in Finset.range l.length, l.getD i 0 := by
  induction l with
  | nil => simp
  | cons x xs ih =>
    rw [List.sum_cons, List.length_cons, Finset.sum_range_succ', ih]
    simp [add_comm]

theorem getD_nonneg (l : List ℚ) (h : ∀ x ∈ l, 0 ≤ x) (i : ℕ) : 0 ≤ l.getD i 0 := by
  by_cases hi : i < l.length
  · exact h _ (by rw [List.getD_eq_getElem _ _ hi]; exact List.getElem_mem hi)
  · rw [List.getD_eq_default _ _ (le_of_not_lt hi)]

theorem sorted_getD_mono (l : List ℚ) (hs : l.Sorted (· ≤ ·)) {i j : ℕ}
    (hij : i ≤ j) (hj : j < l.length) : l.getD i 0 ≤ l.getD j 0 := by
  have hi : i < l.length := lt_of_le_of_lt hij hj
  rw [List.getD_eq_get _ _ hi, List.getD_eq_get _ _ hj]
  exact hs.rel_get_of_le hij

/-! ## Range of the Gini weighted sum -/

theorem sumaPonderada_le (l : List ℚ) (h : ∀ x ∈ l, 0 ≤ x) :
    sumaPonderada l ≤ (l.length : ℚ) * l.sum := by
  rw [sumaPonderada, list_sum_eq_range_getD, Finset.mul_sum]
  apply Finset.sum_le_sum
  intro i hi
  rw [Finset.mem_range] at hi
  have h1 : ((i : ℚ) + 1) ≤ (l.length : ℚ) := by exact_mod_cast Nat.succ_le_of_lt hi
  exact mul_le_mul_of_nonneg_right h1 (getD_nonneg l h i)

/-- The rearrangement half of the Gini bound: for an ascending list of
nonnegative values, the rank-weighted sum dominates `(n+1)/2` times the sum. -/
theorem le_two_sumaPonderada (l : List ℚ) (hs : l.Sorted (· ≤ ·)) (h : ∀ x ∈ l, 0 ≤ x) :
    ((l.length : ℚ) + 1) * l.sum ≤ 2 * sumaPonderada l := by
  have hexpand : 2 * sumaPonderada l - ((l.length : ℚ) + 1) * l.sum
      = ∑ i in Finset.range l.length, ((2 * (i : ℚ) + 1 - l.length) * l.getD i 0) := by
    rw [sumaPonderada, list_sum_eq_range_getD, Finset.mul_sum, Finset.mul_sum,
      ← Finset.sum_sub_distrib]
    exact Finset.sum_congr rfl (fun i _ => by ring)
  have hrefl : ∑ i in Finset.range l.length, ((2 * (i : ℚ) + 1 - l.length) * l.getD i 0)
      = ∑ i in Finset.range l.length,
          ((2 * ((l.length - 1 - i : ℕ) : ℚ) + 1 - l.length) * l.getD (l.length - 1 - i) 0) :=
    (Finset.sum_range_reflect (fun i => (2 * (i : ℚ) + 1 - l.length) * l.getD i 0) l.length).symm
  have heach : ∀ i ∈ Finset.range l.length,
      0 ≤ (2 * (i : ℚ) + 1 - l.length) * l.getD i 0
        + (2 * ((l.length - 1 - i : ℕ) : ℚ) + 1 - l.length) * l.getD (l.length - 1 - i) 0 := by
    intro i hi
    rw [Finset.mem_range] at hi
    have hcast : ((l.length - 1 - i : ℕ) : ℚ) = (l.length : ℚ) - 1 - i := by
      have h1 : i ≤ l.length - 1 := by omega
      have h2 : 1 ≤ l.length := by omega
      push_cast [Nat.cast_sub h1, Nat.cast_sub h2]
      ring
    rw [hcast]
    have hflip : (2 * ((l.length : ℚ) - 1 - i) + 1 - l.length)
        = -(2 * (i : ℚ) + 1 - l.length) := by ring
    rw [hflip]
    rcases le_or_lt i (l.length - 1 - i) with hle | hlt
    · have hc : 2 * (i : ℚ) + 1 - l.length ≤ 0 := by
        have hn : (2 * i + 1 : ℕ) ≤ l.length := by omega
        have := (Nat.cast_le (α := ℚ)).mpr hn
        push_cast at this
        linarith
      have hgle : l.getD i 0 ≤ l.getD (l.length - 1 - i) 0 :=
        sorted_getD_mono l hs hle (by omega)
      nlinarith [mul_nonneg (neg_nonneg.mpr hc) (sub_nonneg.mpr hgle)]
    · have hc : 0 ≤ 2 * (i : ℚ) + 1 - l.length := by
        have hn : l.length ≤ 2 * i + 1 := by omega
        have := (Nat.cast_le (α := ℚ)).mpr hn
        push_cast at this
        linarith
      have hgle : l.getD (l.length - 1 - i) 0 ≤ l.getD i 0 :=
        sorted_getD_mono l hs (by omega) hi
      nlinarith [mul_nonneg hc (sub_nonneg.mpr hgle)]
  have hsum2 : 0 ≤ 2 * ∑ i in Finset.range l.length,
      ((2 * (i : ℚ) + 1 - l.length) * l.getD i 0) := by
    calc (0 : ℚ) ≤ ∑ i in Finset.range l.length,
          ((2 * (i : ℚ) + 1 - l.length) * l.getD i 0
            + (2 * ((l.length - 1 - i : ℕ) : ℚ) + 1 - l.length) * l.getD (l.length - 1 - i) 0) :=
          Finset.sum_nonneg heach
      _ = 2 * ∑ i in Finset.range l.length, ((2 * (i : ℚ) + 1 - l.length) * l.getD i 0) := by
          rw [Finset.sum_add_distrib, ← hrefl]; ring
  linarith [hexpand, hsum2]

/-- On nonnegative inputs the Gini coefficient is nonnegative. -/
theorem gini_nonneg (l : List ℚ) (h : ∀ x ∈ l, 0 ≤ x) : 0 ≤ calcular_coeficiente_gini l := by
  simp only [calcular_coeficiente_gini]
  split_ifs with h0 hT
  · norm_num
  · norm_num
  · have hvs : (l.insertionSort (· ≤ ·)).Sorted (· ≤ ·) := List.sorted_insertionSort _ l
    have hvnn : ∀ x ∈ l.insertionSort (· ≤ ·), 0 ≤ x :=
      fun x hx => h x ((List.perm_insertionSort _ l).subset hx)
    have hTpos : 0 < (l.insertionSort (· ≤ ·)).sum :=
      lt_of_le_of_ne (List.sum_nonneg hvnn) (Ne.symm hT)
    have hn : 0 < (l.insertionSort (· ≤ ·)).length := by
      rw [List.length_insertionSort]; omega
    have hnQ : 0 < ((l.insertionSort (· ≤ ·)).length : ℚ) := by exact_mod_cast hn
    have hkey := le_two_sumaPonderada (l.insertionSort (· ≤ ·)) hvs hvnn
    rw [sub_nonneg, div_le_div_iff hnQ (by positivity)]
    nlinarith [hkey, hnQ, hTpos]

/-- On nonnegative inputs the Gini coefficient is at most one. -/
theorem gini_le_one (l : List ℚ) (h : ∀ x ∈ l, 0 ≤ x) : calcular_coeficiente_gini l ≤ 1 := by
  simp only [calcular_coeficiente_gini]
  split_ifs with h0 hT
  · norm_num
  · norm_num
  · have hvnn : ∀ x ∈ l.insertionSort (· ≤ ·), 0 ≤ x :=
      fun x hx => h x ((List.perm_insertionSort _ l).subset hx)
    have hTpos : 0 < (l.insertionSort (· ≤ ·)).sum :=
      lt_of_le_of_ne (List.sum_nonneg hvnn) (Ne.symm hT)
    have hn : 0 < (l.insertionSort (· ≤ ·)).length := by
      rw [List.length_insertionSort]; omega
    have hnQ : 0 < ((l.insertionSort (· ≤ ·)).length : ℚ) := by exact_mod_cast hn
    have hkey := sumaPonderada_le (l.insertionSort (· ≤ ·)) hvnn
    have h1 : 2 * sumaPonderada (l.insertionSort (· ≤ ·))
        / (((l.insertionSort (· ≤ ·)).length : ℚ) * (l.insertionSort (· ≤ ·)).sum) ≤ 2 := by
      rw [div_le_iff (by positivity)]
      nlinarith [hkey]
    have h2 : 1 ≤ (((l.insertionSort (· ≤ ·)).length : ℚ) + 1)
        / ((l.insertionSort (· ≤ ·)).length : ℚ) := by
      rw [le_div_iff hnQ]
      linarith
    linarith

/-! ## Bounds on dictionary lookups -/

theorem dlookup_nonneg (d : Dict) (hd : ∀ p ∈ d, 0 ≤ p.2) (k : String) : 0 ≤ dlookup d k := by
  rw [dlookup]
  cases hf : d.find? (fun p => p.1 == k) with
  | none => simp
  | some p => simpa using hd p (List.mem_of_find?_eq_some hf)

theorem dlookup_le_one (d : Dict) (hd : ∀ p ∈ d, p.2 ≤ 1) (k : String) : dlookup d k ≤ 1 := by
  rw [dlookup]
  cases hf : d.find? (fun p => p.1 == k) with
  | none => simp
  | some p => simpa using hd p (List.mem_of_find?_eq_some hf)

theorem dlookup_eq_zero_of_missing (d : Dict) (k : String) (h : k ∉ d.map Prod.fst) :
    dlookup d k = 0 := by
  rw [dlookup, List.find?_eq_none.mpr]
  · rfl
  · intro p hp hpk
    exact h (List.mem_map.mpr ⟨p, hp, eq_of_beq hpk⟩)

theorem SOCIAL_NORM_bounds : ∀ p ∈ SOCIAL_NORM, 0 ≤ p.2 ∧ p.2 ≤ 1 := by
  with_unfolding_all decide

theorem LEGAL_NORM_bounds : ∀ p ∈ LEGAL_NORM, 0 ≤ p.2 ∧ p.2 ≤ 1 := by
  with_unfolding_all decide

theorem CONSUMO_NORM_eq :
    CONSUMO_NORM = [("Capultitlán", 53/60), ("Villa GAM", 23/30),
      ("Residencial Zacatenco", 5/12), ("Tepeyac Insurgentes", 3/10), ("Lindavista I", 8/15),
      ("Magdalena de las Salinas", 1), ("Lindavista II", 13/20)] := by
  with_unfolding_all rfl

theorem CONSUMO_NORM_bounds : ∀ p ∈ CONSUMO_NORM, 0 ≤ p.2 ∧ p.2 ≤ 1 := by
  rw [CONSUMO_NORM_eq]
  intro p hp
  simp only [List.mem_cons, List.not_mem_nil, or_false] at hp
  rcases hp with rfl | rfl | rfl | rfl | rfl | rfl | rfl <;> exact ⟨by norm_num, by norm_num⟩

theorem REPORTES_NORM_eq :
    REPORTES_NORM = [("Capultitlán", 3/10), ("Villa GAM", 5/12),
      ("Residencial Zacatenco", 1), ("Tepeyac Insurgentes", 13/20), ("Lindavista I", 23/30),
      ("Magdalena de las Salinas", 8/15), ("Lindavista II", 53/60)] := by
  with_unfolding_all rfl

theorem REPORTES_NORM_bounds : ∀ p ∈ REPORTES_NORM, 0 ≤ p.2 ∧ p.2 ≤ 1 := by
  rw [REPORTES_NORM_eq]
  intro p hp
  simp only [List.mem_cons, List.not_mem_nil, or_false] at hp
  rcases hp with rfl | rfl | rfl | rfl | rfl | rfl | rfl <;> exact ⟨by norm_num, by norm_num⟩

/-! ## Bounds on the heuristic -/

theorem calcular_heuristica_nonneg (alpha beta gamma delta : ℚ) (ha : 0 ≤ alpha) (hb : 0 ≤ beta)
    (hg : 0 ≤ gamma) (hd : 0 ≤ delta) (e c : String) :
    0 ≤ calcular_heuristica alpha beta gamma delta e c := by
  have h1 := dlookup_nonneg SOCIAL_NORM (fun p hp => (SOCIAL_NORM_bounds p hp).1) e
  have h2 := dlookup_nonneg LEGAL_NORM (fun p hp => (LEGAL_NORM_bounds p hp).1) e
  have h3 := dlookup_nonneg CONSUMO_NORM (fun p hp => (CONSUMO_NORM_bounds p hp).1) c
  have h4 := dlookup_nonneg REPORTES_NORM (fun p hp => (REPORTES_NORM_bounds p hp).1) c
  simp only [calcular_heuristica]
  exact add_nonneg (add_nonneg (add_nonneg (mul_nonneg ha h1) (mul_nonneg hb h2))
    (mul_nonneg hg h3)) (mul_nonneg hd h4)

/-- Each signal-attribution ratio of `calcular_utilidad` lies in `[0, 1]`:
the weighted sample is dominated termwise by the heuristic sample. -/
theorem ratio_bounds (alpha beta gamma delta : ℚ)
    (ha : 0 ≤ alpha) (hb : 0 ≤ beta) (hg : 0 ≤ gamma) (hd : 0 ≤ delta)
    (m : Dict) (hm : ∀ p ∈ m, 0 ≤ p.2 ∧ p.2 ≤ 1) (sel : String × String → String) :
    0 ≤ (if 0 < (pares.map (fun p => calcular_heuristica alpha beta gamma delta p.2 p.1)).sum
      then (pares.map (fun p =>
          calcular_heuristica alpha beta gamma delta p.2 p.1 * dlookup m (sel p))).sum
        / (pares.map (fun p => calcular_heuristica alpha beta gamma delta p.2 p.1)).sum
      else 0)
    ∧ (if 0 < (pares.map (fun p => calcular_heuristica alpha beta gamma delta p.2 p.1)).sum
      then (pares.map (fun p =>
          calcular_heuristica alpha beta gamma delta p.2 p.1 * dlookup m (sel p))).sum
        / (pares.map (fun p => calcular_heuristica alpha beta gamma delta p.2 p.1)).sum
      else 0) ≤ 1 := by
  have hlook0 := dlookup_nonneg m (fun p hp => (hm p hp).1)
  have hlook1 := dlookup_le_one m (fun p hp => (hm p hp).2)
  split_ifs with h
  · have hnum : 0 ≤ (pares.map (fun p =>
        calcular_heuristica alpha beta gamma delta p.2 p.1 * dlookup m (sel p))).sum := by
      apply List.sum_nonneg
      intro x hx
      obtain ⟨p, hp, rfl⟩ := List.mem_map.mp hx
      exact mul_nonneg (calcular_heuristica_nonneg alpha beta gamma delta ha hb hg hd p.2 p.1)
        (hlook0 (sel p))
    have hle : (pares.map (fun p =>
          calcular_heuristica alpha beta gamma delta p.2 p.1 * dlookup m (sel p))).sum
        ≤ (pares.map (fun p => calcular_heuristica alpha beta gamma delta p.2 p.1)).sum := by
      apply List.sum_le_sum
      intro p _
      exact mul_le_of_le_one_right
        (calcular_heuristica_nonneg alpha beta gamma delta ha hb hg hd p.2 p.1) (hlook1 (sel p))
    exact ⟨div_nonneg hnum h.le, (div_le_one h).mpr hle⟩
  · norm_num

/-- C2: for every weight 4-tuple with all components nonnegative summing to 1,
the total utility computed by `calcular_utilidad` lies in `[0, 100]`. -/
theorem C2_utilidad_total_in_range (alpha beta gamma delta : ℚ)
    (ha : 0 ≤ alpha) (hb : 0 ≤ beta) (hg : 0 ≤ gamma) (hd : 0 ≤ delta)
    (hsum : alpha + beta + gamma + delta = 1) :
    0 ≤ (calcular_utilidad alpha beta gamma delta).utilidad_total ∧
      (calcular_utilidad alpha beta gamma delta).utilidad_total ≤ 100 := by
  have hLnn : ∀ x ∈ pares.map (fun p => calcular_heuristica alpha beta gamma delta p.2 p.1),
      0 ≤ x := by
    intro x hx
    obtain ⟨p, hp, rfl⟩ := List.mem_map.mp hx
    exact calcular_heuristica_nonneg alpha beta gamma delta ha hb hg hd p.2 p.1
  have hg0 := gini_nonneg _ hLnn
  have hg1 := gini_le_one _ hLnn
  have hr1 := ratio_bounds alpha beta gamma delta ha hb hg hd SOCIAL_NORM SOCIAL_NORM_bounds
    (fun p => p.2)
  have hr2 := ratio_bounds alpha beta gamma delta ha hb hg hd LEGAL_NORM LEGAL_NORM_bounds
    (fun p => p.2)
  have hr3 := ratio_bounds alpha beta gamma delta ha hb hg hd CONSUMO_NORM CONSUMO_NORM_bounds
    (fun p => p.1)
  have hr4 := ratio_bounds alpha beta gamma delta ha hb hg hd REPORTES_NORM REPORTES_NORM_bounds
    (fun p => p.1)
  simp only [calcular_utilidad]
  obtain ⟨hr1a, hr1b⟩ := hr1
  obtain ⟨hr2a, hr2b⟩ := hr2
  obtain ⟨hr3a, hr3b⟩ := hr3
  obtain ⟨hr4a, hr4b⟩ := hr4
  constructor <;> linarith

/-- C1: `calcular_heuristica` is the linear combination in which `alpha`
multiplies the social-normalized signal of the category, `beta` the
legal-normalized signal, `gamma` the consumption-normalized signal of the
zone and `delta` the reports-normalized signal; instantiated concretely at
category "Escuelas" and zone "Capultitlán" with the repository data. -/
theorem C1_heuristica_formula (alpha beta gamma delta : ℚ) (e c : String) :
    calcular_heuristica alpha beta gamma delta e c
      = alpha * dlookup SOCIAL_NORM e + beta * dlookup LEGAL_NORM e
        + gamma * dlookup CONSUMO_NORM c + delta * dlookup REPORTES_NORM c ∧
    calcular_heuristica alpha beta gamma delta "Escuelas" "Capultitlán"
      = alpha * (5/7) + beta * (1/3) + gamma * (53/60) + delta * (3/10) := by
  constructor
  · rfl
  · have h1 : dlookup SOCIAL_NORM "Escuelas" = 5/7 := by with_unfolding_all rfl
    have h2 : dlookup LEGAL_NORM "Escuelas" = 1/3 := by with_unfolding_all rfl
    have h3 : dlookup CONSUMO_NORM "Capultitlán" = 53/60 := by with_unfolding_all rfl
    have h4 : dlookup REPORTES_NORM "Capultitlán" = 3/10 := by with_unfolding_all rfl
    simp only [calcular_heuristica]
    rw [h1, h2, h3, h4]

/-- C3 counterexample: on the input `[-2, 3]` (nonempty, nonzero sum) the code
returns `5/2`, which is outside `[0, 1]`, so the claimed range fails for
general inputs. -/
theorem C3_gini_outside_unit_interval :
    ([(-2 : ℚ), 3] ≠ ([] : List ℚ)) ∧ ([(-2 : ℚ), 3].sum ≠ 0) ∧
      calcular_coeficiente_gini [-2, 3] = 5/2 ∧ 1 < calcular_coeficiente_gini [-2, 3] := by
  have h : calcular_coeficiente_gini [-2, 3] = 5/2 := by with_unfolding_all rfl
  refine ⟨by simp, by norm_num, h, by rw [h]; norm_num⟩

/-- C3 (amended): `calcular_coeficiente_gini` returns 0 on the empty list and
on any zero-sum list (in particular on `[]`, `[0,0,0]` and `[5]` it returns
0); on any other list it returns exactly the 1-based-rank formula over the
ascending sort; and the value lies in `[0,1]` for NONNEGATIVE inputs. -/
theorem C3_gini_spec (l : List ℚ) (h0 : l ≠ []) (hsum : l.sum ≠ 0) (hnn : ∀ x ∈ l, 0 ≤ x) :
    calcular_coeficiente_gini l
      = (2 * sumaPonderada (l.insertionSort (· ≤ ·))) / ((l.length : ℚ) * l.sum)
        - ((l.length : ℚ) + 1) / (l.length : ℚ) ∧
    0 ≤ calcular_coeficiente_gini l ∧ calcular_coeficiente_gini l ≤ 1 ∧
    calcular_coeficiente_gini ([] : List ℚ) = 0 ∧
    (∀ m : List ℚ, m.sum = 0 → calcular_coeficiente_gini m = 0) ∧
    calcular_coeficiente_gini [0, 0, 0] = 0 ∧ calcular_coeficiente_gini [5] = 0 := by
  have hlen : ¬ l.length = 0 := fun h => h0 (List.length_eq_zero.mp h)
  have hperm : (l.insertionSort (· ≤ ·)).sum = l.sum := (List.perm_insertionSort _ l).sum_eq
  have hzero : ∀ m : List ℚ, m.sum = 0 → calcular_coeficiente_gini m = 0 := by
    intro m hm
    simp only [calcular_coeficiente_gini]
    by_cases hl : m.length = 0
    · rw [if_pos hl]
    · rw [if_neg hl, if_pos (by rw [(List.perm_insertionSort _ m).sum_eq]; exact hm)]
  refine ⟨?_, gini_nonneg l hnn, gini_le_one l hnn, by with_unfolding_all rfl,
    hzero, hzero _ (by simp), by with_unfolding_all rfl⟩
  simp only [calcular_coeficiente_gini]
  rw [if_neg hlen, if_neg (by rw [hperm]; exact hsum), List.length_insertionSort, hperm]

/-- C3 witness: the amended specification applied to the concrete input `[1, 2]`. -/
theorem C3_gini_spec_witness :
    (([1, 2] : List ℚ) ≠ []) ∧ (([1, 2] : List ℚ).sum ≠ 0) ∧ (∀ x ∈ ([1, 2] : List ℚ), 0 ≤ x) ∧
    (calcular_coeficiente_gini [1, 2]
      = (2 * sumaPonderada (([1, 2] : List ℚ).insertionSort (· ≤ ·)))
          / ((([1, 2] : List ℚ).length : ℚ) * ([1, 2] : List ℚ).sum)
        - ((([1, 2] : List ℚ).length : ℚ) + 1) / (([1, 2] : List ℚ).length : ℚ) ∧
    0 ≤ calcular_coeficiente_gini [1, 2] ∧ calcular_coeficiente_gini [1, 2] ≤ 1 ∧
    calcular_coeficiente_gini ([] : List ℚ) = 0 ∧
    (∀ m : List ℚ, m.sum = 0 → calcular_coeficiente_gini m = 0) ∧
    calcular_coeficiente_gini [0, 0, 0] = 0 ∧ calcular_coeficiente_gini [5] = 0) := by
  have h0 : ([1, 2] : List ℚ) ≠ [] := by simp
  have hs : (([1, 2] : List ℚ)).sum ≠ 0 := by norm_num
  have hn : ∀ x ∈ ([1, 2] : List ℚ), 0 ≤ x := by
    intro x hx
    simp only [List.mem_cons, List.not_mem_nil, or_false] at hx
    rcases hx with rfl | rfl <;> norm_num
  exact ⟨h0, hs, hn, C3_gini_spec [1, 2] h0 hs hn⟩

/-- C10: `calcular_heuristica` substitutes 0 for every normalized signal whose
key is missing: an unknown category zeroes the `alpha` and `beta` terms and an
unknown zone zeroes the `gamma` and `delta` terms (and the function is total,
returning these values rather than failing). -/
theorem C10_heuristica_missing_keys (alpha beta gamma delta : ℚ) (e c : String) :
    (e ∉ SOCIAL_NORM.map Prod.fst → e ∉ LEGAL_NORM.map Prod.fst →
      calcular_heuristica alpha beta gamma delta e c
        = gamma * dlookup CONSUMO_NORM c + delta * dlookup REPORTES_NORM c) ∧
    (c ∉ CONSUMO_NORM.map Prod.fst → c ∉ REPORTES_NORM.map Prod.fst →
      calcular_heuristica alpha beta gamma delta e c
        = alpha * dlookup SOCIAL_NORM e + beta * dlookup LEGAL_NORM e) := by
  constructor
  · intro h1 h2
    simp only [calcular_heuristica]
    rw [dlookup_eq_zero_of_missing _ _ h1, dlookup_eq_zero_of_missing _ _ h2]
    ring
  · intro h1 h2
    simp only [calcular_heuristica]
    rw [dlookup_eq_zero_of_missing _ _ h1, dlookup_eq_zero_of_missing _ _ h2]
    ring

/-- C10 witness: an unknown category zeroes the alpha and beta terms at a
concrete input. -/
theorem C10_heuristica_missing_keys_witness :
    calcular_heuristica 1 1 1 1 "Biblioteca" "Capultitlán"
      = 1 * dlookup CONSUMO_NORM "Capultitlán" + 1 * dlookup REPORTES_NORM "Capultitlán" :=
  (C10_heuristica_missing_keys 1 1 1 1 "Biblioteca" "Capultitlán").1
    (by with_unfolding_all decide) (by with_unfolding_all decide)

/-! ## The maximum of a dict's values -/

theorem foldl_max_mem (l : List ℚ) (a : ℚ) : l.foldl max a = a ∨ l.foldl max a ∈ l := by
  induction l generalizing a with
  | nil => exact Or.inl rfl
  | cons x xs ih =>
    rw [List.foldl_cons]
    rcases ih (max a x) with h | h
    · rcases max_choice a x with hm | hm
      · exact Or.inl (by rw [h, hm])
      · exact Or.inr (by rw [h, hm]; exact List.mem_cons_self x xs)
    · exact Or.inr (List.mem_cons_of_mem x h)

theorem le_foldl_max (l : List ℚ) (a : ℚ) :
    a ≤ l.foldl max a ∧ ∀ x ∈ l, x ≤ l.foldl max a := by
  induction l generalizing a with
  | nil => exact ⟨le_refl a, fun x hx => absurd hx (List.not_mem_nil x)⟩
  | cons y ys ih =>
    rw [List.foldl_cons]
    obtain ⟨h1, h2⟩ := ih (max a y)
    refine ⟨le_trans (le_max_left a y) h1, ?_⟩
    intro x hx
    rcases List.mem_cons.mp hx with rfl | hx
    · exact le_trans (le_max_right a x) h1
    · exact h2 x hx

theorem maxVals_mem (d : Dict) (h : d ≠ []) : ∃ p ∈ d, p.2 = maxVals d := by
  cases d with
  | nil => exact absurd rfl h
  | cons q qs =>
    have heq : maxVals (q :: qs) = (qs.map Prod.snd).foldl max q.2 := rfl
    rcases foldl_max_mem (qs.map Prod.snd) q.2 with hm | hm
    · exact ⟨q, List.mem_cons_self q qs, by rw [heq, hm]⟩
    · obtain ⟨p, hp, hps⟩ := List.mem_map.mp hm
      exact ⟨p, List.mem_cons_of_mem q hp, by rw [heq, hps]⟩

theorem le_maxVals (d : Dict) (p : String × ℚ) (hp : p ∈ d) : p.2 ≤ maxVals d := by
  cases d with
  | nil => exact absurd hp (List.not_mem_nil p)
  | cons q qs =>
    have heq : maxVals (q :: qs) = (qs.map Prod.snd).foldl max q.2 := rfl
    rw [heq]
    obtain ⟨h1, h2⟩ := le_foldl_max (qs.map Prod.snd) q.2
    rcases List.mem_cons.mp hp with rfl | hp
    · exact h1
    · exact h2 p.2 (List.mem_map.mpr ⟨p, hp, rfl⟩)

/-- C4 counterexample: in the repository's own `LEGAL` map the maximum raw
value 3 is shared by several keys, and `normalizar_prioridades` maps the two
distinct keys "Hospital" and "Casas" both to exactly 1.0 — so it is not the
case that every key other than the maximum one is mapped strictly below 1.0. -/
theorem C4_normalizar_ties :
    LEGAL ≠ [] ∧ ("Hospital" : String) ≠ "Casas" ∧
    dlookup (normalizar_prioridades LEGAL) "Hospital" = 1 ∧
    dlookup (normalizar_prioridades LEGAL) "Casas" = 1 := by
  refine ⟨by simp [LEGAL], by decide, ?_, ?_⟩ <;> with_unfolding_all rfl

/-- C4 (amended): for every nonempty raw priority map whose maximum value is
positive, `normalizar_prioridades` divides every entry by the maximum value,
so some entry attains the maximum, every entry attaining the maximum is
mapped to exactly 1.0, and every entry strictly below the maximum is mapped
to a value strictly less than 1.0. -/
theorem C4_normalizar_prioridades_max (l : Dict) (h : l ≠ []) (hm : 0 < maxVals l) :
    (∃ p ∈ l, p.2 = maxVals l) ∧
    normalizar_prioridades l = l.map (fun p => (p.1, p.2 / maxVals l)) ∧
    (∀ p ∈ l, p.2 = maxVals l → p.2 / maxVals l = 1) ∧
    (∀ p ∈ l, p.2 < maxVals l → p.2 / maxVals l < 1) := by
  refine ⟨maxVals_mem l h, rfl, ?_, ?_⟩
  · intro p _ hp
    rw [hp]
    exact div_self hm.ne'
  · intro p _ hp
    exact (div_lt_one hm).mpr hp

/-- C4 witness: the amended statement at the concrete map
`[("A", 2), ("B", 1)]`. -/
theorem C4_normalizar_prioridades_max_witness :
    ([(("A" : String), (2 : ℚ)), ("B", 1)] ≠ ([] : Dict)) ∧
    0 < maxVals [("A", 2), ("B", 1)] ∧
    ((∃ p ∈ ([(("A" : String), (2 : ℚ)), ("B", 1)] : Dict), p.2 = maxVals [("A", 2), ("B", 1)]) ∧
     normalizar_prioridades [("A", 2), ("B", 1)]
       = ([(("A" : String), (2 : ℚ)), ("B", 1)] : Dict).map
           (fun p => (p.1, p.2 / maxVals [("A", 2), ("B", 1)])) ∧
     (∀ p ∈ ([(("A" : String), (2 : ℚ)), ("B", 1)] : Dict),
        p.2 = maxVals [("A", 2), ("B", 1)] → p.2 / maxVals [("A", 2), ("B", 1)] = 1) ∧
     (∀ p ∈ ([(("A" : String), (2 : ℚ)), ("B", 1)] : Dict),
        p.2 < maxVals [("A", 2), ("B", 1)] → p.2 / maxVals [("A", 2), ("B", 1)] < 1)) := by
  have h : ([(("A" : String), (2 : ℚ)), ("B", 1)] : Dict) ≠ [] := by simp
  have hm : 0 < maxVals [("A", 2), ("B", 1)] := by with_unfolding_all decide
  exact ⟨h, hm, C4_normalizar_prioridades_max [("A", 2), ("B", 1)] h hm⟩

/-- C8: the constraint-repair operation of the optimizer (component-wise
absolute value followed by division by the component sum) is idempotent on
every vector whose repaired image is componentwise nonnegative. -/
theorem C8_repair_idempotent (v : Vec4)
    (h : 0 ≤ (repair v).a ∧ 0 ≤ (repair v).b ∧ 0 ≤ (repair v).c ∧ 0 ≤ (repair v).d) :
    repair (repair v) = repair v := by
  obtain ⟨a, b, c, d⟩ := v
  by_cases hs : |a| + |b| + |c| + |d| = 0
  · have ha : a = 0 := abs_eq_zero.mp (by
      nlinarith [abs_nonneg a, abs_nonneg b, abs_nonneg c, abs_nonneg d])
    have hb : b = 0 := abs_eq_zero.mp (by
      nlinarith [abs_nonneg a, abs_nonneg b, abs_nonneg c, abs_nonneg d])
    have hc : c = 0 := abs_eq_zero.mp (by
      nlinarith [abs_nonneg a, abs_nonneg b, abs_nonneg c, abs_nonneg d])
    have hd : d = 0 := abs_eq_zero.mp (by
      nlinarith [abs_nonneg a, abs_nonneg b, abs_nonneg c, abs_nonneg d])
    subst ha hb hc hd
    simp [repair, Vec4.vabs, Vec4.vsum]
  · have hpos : 0 < |a| + |b| + |c| + |d| :=
      lt_of_le_of_ne (by positivity) (Ne.symm hs)
    simp only [repair, Vec4.vabs, Vec4.vsum]
    have h1 := abs_of_nonneg (div_nonneg (abs_nonneg a) hpos.le)
    have h2 := abs_of_nonneg (div_nonneg (abs_nonneg b) hpos.le)
    have h3 := abs_of_nonneg (div_nonneg (abs_nonneg c) hpos.le)
    have h4 := abs_of_nonneg (div_nonneg (abs_nonneg d) hpos.le)
    rw [h1, h2, h3, h4]
    have hsum : |a| / (|a| + |b| + |c| + |d|) + |b| / (|a| + |b| + |c| + |d|)
        + |c| / (|a| + |b| + |c| + |d|) + |d| / (|a| + |b| + |c| + |d|) = 1 := by
      field_simp
    rw [hsum]
    simp [div_one]

/-- C8 witness: idempotence at the concrete raw vector `(-1, 2, 0, 3)`. -/
theorem C8_repair_idempotent_witness :
    (0 ≤ (repair ⟨-1, 2, 0, 3⟩).a ∧ 0 ≤ (repair ⟨-1, 2, 0, 3⟩).b ∧
      0 ≤ (repair ⟨-1, 2, 0, 3⟩).c ∧ 0 ≤ (repair ⟨-1, 2, 0, 3⟩).d) ∧
    repair (repair ⟨-1, 2, 0, 3⟩) = repair ⟨-1, 2, 0, 3⟩ := by
  have h : 0 ≤ (repair ⟨-1, 2, 0, 3⟩).a ∧ 0 ≤ (repair ⟨-1, 2, 0, 3⟩).b ∧
      0 ≤ (repair ⟨-1, 2, 0, 3⟩).c ∧ 0 ≤ (repair ⟨-1, 2, 0, 3⟩).d := by
    with_unfolding_all decide
  exact ⟨h, C8_repair_idempotent ⟨-1, 2, 0, 3⟩ h⟩

/-- Scaling a list of rationals multiplies its sum by the scalar. -/
theorem sum_map_scale (k : ℚ) (m : List ℚ) : (m.map (fun v => k * v)).sum = k * m.sum := by
  induction m with
  | nil => simp
  | cons x xs ih => simp [ih, mul_add]

/-- Scaling a list multiplies its rank-weighted sum by the scalar. -/
theorem sumaPonderada_map_scale (k : ℚ) (m : List ℚ) :
    sumaPonderada (m.map (fun v => k * v)) = k * sumaPonderada m := by
  rw [sumaPonderada, sumaPonderada, List.length_map, Finset.mul_sum]
  apply Finset.sum_congr rfl
  intro i hi
  rw [Finset.mem_range] at hi
  rw [List.getD_eq_getElem _ _ (by simpa using hi), List.getD_eq_getElem _ _ hi, List.getElem_map]
  ring

/-- C9: `calcular_coeficiente_gini` is invariant under permutation of its
input and under multiplication of every element by a positive scalar. -/
theorem C9_gini_invariances (l l' : List ℚ) (k : ℚ) (hp : l.Perm l') (hk : 0 < k) :
    calcular_coeficiente_gini l' = calcular_coeficiente_gini l ∧
    calcular_coeficiente_gini (l.map (fun v => k * v)) = calcular_coeficiente_gini l := by
  constructor
  · have hsort : l'.insertionSort (· ≤ ·) = l.insertionSort (· ≤ ·) :=
      List.eq_of_perm_of_sorted
        ((List.perm_insertionSort _ l').trans (hp.symm.trans (List.perm_insertionSort _ l).symm))
        (List.sorted_insertionSort _ _) (List.sorted_insertionSort _ _)
    have hlen : l'.length = l.length := hp.symm.length_eq
    simp only [calcular_coeficiente_gini, hsort, hlen]
  · have hmono : ∀ a ∈ l, ∀ b ∈ l, (a ≤ b ↔ k * a ≤ k * b) :=
      fun a _ b _ => (mul_le_mul_left hk).symm
    have hmap : ((l.insertionSort (· ≤ ·)).map (fun v => k * v))
        = (l.map (fun v => k * v)).insertionSort (· ≤ ·) :=
      List.map_insertionSort _ _ _ l hmono
    simp only [calcular_coeficiente_gini, List.length_map, ← hmap,
      sum_map_scale, sumaPonderada_map_scale]
    by_cases h0 : l.length = 0
    · simp [h0]
    · simp only [h0, if_false]
      by_cases hT : (l.insertionSort (· ≤ ·)).sum = 0
      · simp [hT]
      · rw [if_neg (mul_ne_zero hk.ne' hT), if_neg hT]
        have hn : ((l.insertionSort (· ≤ ·)).length : ℚ) ≠ 0 := by
          rw [List.length_insertionSort]
          exact_mod_cast h0
        rw [List.length_insertionSort] at *
        field_simp
        ring

/-- C9 witness: invariance at the concrete permutation `[1,2] ~ [2,1]` and
the concrete scalar 2. -/
theorem C9_gini_invariances_witness :
    (0 : ℚ) < 2 ∧
    (calcular_coeficiente_gini [2, 1] = calcular_coeficiente_gini [1, 2] ∧
     calcular_coeficiente_gini (([1, 2] : List ℚ).map (fun v => 2 * v))
       = calcular_coeficiente_gini [1, 2]) :=
  ⟨by norm_num, C9_gini_invariances [1, 2] [2, 1] 2 (List.Perm.swap 2 1 []) (by norm_num)⟩


/-! ## PSO: history bookkeeping -/

theorem particleStep_history (cfg : Config) (st : SwarmState) (i : ℕ) :
    (particleStep cfg st i).history = st.history := by
  simp only [particleStep]
  split_ifs <;> rfl

theorem sweep_history (cfg : Config) (L : List ℕ) (st : SwarmState) :
    (L.foldl (particleStep cfg) st).history = st.history := by
  induction L generalizing st with
  | nil => rfl
  | cons a L ih => rw [List.foldl_cons, ih, particleStep_history]

theorem iterStep_history (cfg : Config) (f : ℚ → ℚ) (st : SwarmState) (it : ℕ) :
    (iterStep cfg f st it).history.map HistRec.iteration
      = st.history.map HistRec.iteration ++ [it] := by
  simp only [iterStep, sweep_history, List.map_append, List.map_cons, List.map_nil]

theorem foldl_iterStep_history (cfg : Config) (f : ℚ → ℚ) (L : List ℕ) (st : SwarmState) :
    ((L.foldl (iterStep cfg f) st).history).map HistRec.iteration
      = st.history.map HistRec.iteration ++ L := by
  induction L generalizing st with
  | nil => simp
  | cons a L ih =>
    rw [List.foldl_cons, ih, iterStep_history]
    simp

/-- C7: for every valid configuration the optimizer completes, its history
records the iterations 0, 1, ..., n_iterations-1 in order (exactly one per
iteration, no early stopping), and with one particle and zero iterations it
returns exactly the sampled initial position, its utility, and an empty
history. -/
theorem C7_optimize_iterations (cfg : Config) (f : ℚ → ℚ) (r : RState)
    (h1 : 1 ≤ cfg.n_particles) :
    isOk (optimize cfg f r) = true ∧
    (historyOf (optimize cfg f r)).map HistRec.iteration = List.range cfg.n_iterations.toNat ∧
    (cfg.n_particles = 1 → cfg.n_iterations = 0 →
      optimize cfg f r = .ok ((dirichlet4 r).1,
        calcular_utilidad (dirichlet4 r).1.a (dirichlet4 r).1.b (dirichlet4 r).1.c
          (dirichlet4 r).1.d, [])) := by
  have hneg : ¬ cfg.n_particles < 0 := by omega
  obtain ⟨m, hm⟩ : ∃ m, cfg.n_particles.toNat = m + 1 := ⟨cfg.n_particles.toNat - 1, by omega⟩
  rcases hd : dirichlet4 r with ⟨p0, r1⟩
  have hsamp : sampleList dirichlet4 cfg.n_particles.toNat r
      = (p0 :: (sampleList dirichlet4 m r1).1, (sampleList dirichlet4 m r1).2) := by
    rw [hm]
    simp [sampleList, hd]
  simp only [optimize, hneg, if_false, hsamp, List.map_cons, argmaxIdx]
  refine ⟨rfl, ?_, ?_⟩
  · simp only [historyOf]
    rw [foldl_iterStep_history]
    simp
  · intro hp1 hi0
    have hm0 : m = 0 := by omega
    subst hm0
    rw [hi0]
    simp [sampleList, iterStep, hd, argmaxAux]

/-- C7 witness: the iteration bookkeeping at a concrete configuration. -/
theorem C7_optimize_iterations_witness :
    isOk (optimize ⟨1, 0, 7/10, 3/2, 3/2⟩ id ⟨fun _ => 1/2, 0⟩) = true :=
  (C7_optimize_iterations ⟨1, 0, 7/10, 3/2, 3/2⟩ id ⟨fun _ => 1/2, 0⟩ (by norm_num)).1

/-- C5: the optimizer is a deterministic function of the configuration and
the random stream: two runs whose generators produce the same draws from the
same cursor yield identical best positions, utility results and histories. -/
theorem C5_optimize_deterministic (cfg : Config) (f : ℚ → ℚ) (s1 s2 : ℕ → ℚ) (i1 i2 : ℕ)
    (hs : ∀ n, s1 n = s2 n) (hi : i1 = i2) :
    optimize cfg f ⟨s1, i1⟩ = optimize cfg f ⟨s2, i2⟩ := by
  have h : s1 = s2 := funext hs
  rw [h, hi]

/-- C5 witness: determinism at a concrete configuration and stream. -/
theorem C5_optimize_deterministic_witness :
    optimize ⟨30, 150, 7/10, 3/2, 3/2⟩ id ⟨fun _ => 1/2, 0⟩
      = optimize ⟨30, 150, 7/10, 3/2, 3/2⟩ id ⟨fun _ => 1/2, 0⟩ :=
  C5_optimize_deterministic ⟨30, 150, 7/10, 3/2, 3/2⟩ id _ _ 0 0 (fun _ => rfl) rfl

/-- C6 counterexample: with `n_iterations = 0` — a configuration the claim
requires to be rejected as a fatal precondition violation before the search
begins — `optimize` instead completes normally and returns a result. -/
theorem C6_runs_without_rejection :
    isOk (optimize ⟨1, 0, 7/10, 3/2, 3/2⟩ id ⟨fun _ => 1/2, 0⟩) = true ∧
    historyOf (optimize ⟨1, 0, 7/10, 3/2, 3/2⟩ id ⟨fun _ => 1/2, 0⟩) = [] := by
  constructor <;> with_unfolding_all rfl

/-- C6 (amended): the code performs no precondition validation.  With at
least one particle and a nonpositive iteration count the loop body is skipped
and `optimize` returns normally with an empty history; with zero particles it
fails only at the argmax over the empty fitness array (after sampling); with
a negative particle count it fails at sampling; and the all-zero position is
not rejected by the repair step (in this rational model `repair` maps the
zero vector to the zero vector — NaN in the float code — and execution
continues). -/
theorem C6_no_validation (cfg : Config) (f : ℚ → ℚ) (r : RState)
    (h1 : 1 ≤ cfg.n_particles) (h0 : cfg.n_iterations ≤ 0) :
    (isOk (optimize cfg f r) = true ∧ historyOf (optimize cfg f r) = []) ∧
    (∀ cfg2 : Config, ∀ f2 : ℚ → ℚ, ∀ r2 : RState, cfg2.n_particles = 0 →
      optimize cfg2 f2 r2 = .error "ValueError: attempt to get argmax of an empty sequence") ∧
    (∀ cfg3 : Config, ∀ f3 : ℚ → ℚ, ∀ r3 : RState, cfg3.n_particles < 0 →
      optimize cfg3 f3 r3 = .error "ValueError: negative dimensions are not allowed") ∧
    repair ⟨0, 0, 0, 0⟩ = ⟨0, 0, 0, 0⟩ := by
  refine ⟨?_, ?_, ?_, by with_unfolding_all rfl⟩
  · have hneg : ¬ cfg.n_particles < 0 := by omega
    obtain ⟨m, hm⟩ : ∃ m, cfg.n_particles.toNat = m + 1 := ⟨cfg.n_particles.toNat - 1, by omega⟩
    have hit : cfg.n_iterations.toNat = 0 := by omega
    rcases hd : dirichlet4 r with ⟨p0, r1⟩
    have hsamp : sampleList dirichlet4 cfg.n_particles.toNat r
        = (p0 :: (sampleList dirichlet4 m r1).1, (sampleList dirichlet4 m r1).2) := by
      rw [hm]
      simp [sampleList, hd]
    simp only [optimize, hneg, if_false, hsamp, List.map_cons, argmaxIdx, hit]
    exact ⟨rfl, rfl⟩
  · intro cfg2 f2 r2 h
    simp [optimize, h, sampleList, argmaxIdx]
  · intro cfg3 f3 r3 h
    simp only [optimize]
    rw [if_pos h]

/-- C6 witness: the amended statement at a concrete configuration. -/
theorem C6_no_validation_witness :
    isOk (optimize ⟨1, -5, 7/10, 3/2, 3/2⟩ id ⟨fun _ => 1/2, 0⟩) = true ∧
      historyOf (optimize ⟨1, -5, 7/10, 3/2, 3/2⟩ id ⟨fun _ => 1/2, 0⟩) = [] :=
  (C6_no_validation ⟨1, -5, 7/10, 3/2, 3/2⟩ id ⟨fun _ => 1/2, 0⟩
    (by norm_num) (by norm_num)).1

/-- C2 witness: the total utility at the uniform simplex weight vector. -/
theorem C2_utilidad_total_in_range_witness :
    0 ≤ (calcular_utilidad (1/4) (1/4) (1/4) (1/4)).utilidad_total ∧
      (calcular_utilidad (1/4) (1/4) (1/4) (1/4)).utilidad_total ≤ 100 :=
  C2_utilidad_total_in_range (1/4) (1/4) (1/4) (1/4)
    (by norm_num) (by norm_num) (by norm_num) (by norm_num) (by norm_num)

end TTAwoda
